import Mathlib

/-!
Shallow embedding of the pyxmv repository (session driver, command layer,
output parser, simulation heuristics) and proofs about it.

Python strings are modelled as `List Char`; Python `dict[str, str]` as an
insertion-ordered association list; fallible Python code (code that can raise)
as `Option`-returning functions.  The text-processing primitives below model
the Python `str` methods used by the source files (`find`, `rfind`, `split`,
`splitlines`, `strip`, `startswith`, `replace`, slicing) restricted to the
`\n`-separated ASCII texts the parser actually consumes.
-/

namespace PyStr

/-- The characters stripped by Python `str.strip()` (ASCII whitespace). -/
def pyIsSpace (c : Char) : Bool :=
  c = ' ' ∨ c = '\t' ∨ c = '\n' ∨ c = '\r' ∨ c = '\x0b' ∨ c = '\x0c'

/-- Python `str.strip()`. -/
def pyStrip (xs : List Char) : List Char :=
  ((xs.dropWhile pyIsSpace).reverse.dropWhile pyIsSpace).reverse

/-- Python `str.startswith(sub)`. -/
def startsWith (sub xs : List Char) : Bool :=
  sub.isPrefixOf xs

/-- Python `str.find(sub)`: index of the first occurrence, `none` for `-1`. -/
def pyFindAux (sub : List Char) : List Char → Nat → Option Nat
  | [], i => if sub = [] then some i else none
  | x :: xs, i =>
    if sub.isPrefixOf (x :: xs) then some i else pyFindAux sub xs (i + 1)

def pyFind (sub xs : List Char) : Option Nat :=
  pyFindAux sub xs 0

/-- Python `sub in s`. -/
def containsSub (sub xs : List Char) : Bool :=
  (pyFind sub xs).isSome

/-- Python `str.find(sub, start)` (absolute index). -/
def pyFindFrom (sub xs : List Char) (start : Nat) : Option Nat :=
  (pyFind sub (xs.drop start)).map (· + start)

/-- The find-loop of `Outcome.parse`: collect every occurrence index of
`search`, restarting each search one past the previous hit.  The fuel
argument bounds the loop; `xs.length + 1` iterations always suffice. -/
def findAllLoop (sub xs : List Char) : Nat → Nat → List Nat
  | 0, _ => []
  | fuel + 1, start =>
    match pyFindFrom sub xs start with
    | none => []
    | some i => i :: findAllLoop sub xs fuel (i + 1)

def findAll (sub xs : List Char) : List Nat :=
  findAllLoop sub xs (xs.length + 1) 0

/-- Python slicing `s[a:b]` with negative-index normalisation. -/
def pySlice (xs : List Char) (a b : Int) : List Char :=
  let n : Int := xs.length
  let a' : Nat := (if a < 0 then max 0 (n + a) else min a n).toNat
  let b' : Nat := (if b < 0 then max 0 (n + b) else min b n).toNat
  (xs.drop a').take (b' - a')

/-- Python `str.rfind(sub, 0, end)`: highest match index fully inside
`xs[0:end]`, `none` for `-1`. -/
def pyRFindBefore (sub xs : List Char) (endPos : Nat) : Option Nat :=
  (findAll sub (xs.take endPos)).getLast?

/-- Python `str.split(sep)` for a non-empty separator, written with explicit
fuel so that it is structurally recursive (fuel `xs.length` suffices, since a
separator hit always consumes at least one character). -/
def splitOnFuel (sep : List Char) : Nat → List Char → List (List Char)
  | 0, xs => [xs]
  | _ + 1, [] => [[]]
  | fuel + 1, x :: xs =>
    if sep ≠ [] ∧ sep.isPrefixOf (x :: xs) then
      [] :: splitOnFuel sep fuel (List.drop sep.length (x :: xs))
    else
      match splitOnFuel sep fuel xs with
      | [] => [[x]]
      | y :: ys => (x :: y) :: ys

def splitOnL (sep xs : List Char) : List (List Char) :=
  splitOnFuel sep xs.length xs

/-- Python `str.splitlines()` on `\n`-separated text: split on `'\n'`,
dropping the final empty piece produced by a trailing newline. -/
def pySplitlines (xs : List Char) : List (List Char) :=
  if xs = [] then []
  else
    let parts := splitOnL [ '\n' ] xs
    if xs.getLast? = some '\n' then parts.dropLast else parts

/-- Python `str.replace(old, new)` (all non-overlapping occurrences, left to
right), with fuel for structural recursion. -/
def pyReplaceFuel (old new : List Char) : Nat → List Char → List Char
  | 0, xs => xs
  | _ + 1, [] => []
  | fuel + 1, x :: xs =>
    if old ≠ [] ∧ old.isPrefixOf (x :: xs) then
      new ++ pyReplaceFuel old new fuel (List.drop old.length (x :: xs))
    else
      x :: pyReplaceFuel old new fuel xs

def pyReplace (xs old new : List Char) : List Char :=
  pyReplaceFuel old new xs.length xs

/-- Python `sorted` on a list of naturals (insertion sort). -/
def insertSorted (x : Nat) : List Nat → List Nat
  | [] => [x]
  | y :: ys => if x ≤ y then x :: y :: ys else y :: insertSorted x ys

def pySorted : List Nat → List Nat
  | [] => []
  | x :: xs => insertSorted x (pySorted xs)

/-- `itertools.pairwise`. -/
def pyPairwise : List α → List (α × α)
  | [] => []
  | [_] => []
  | x :: y :: rest => (x, y) :: pyPairwise (y :: rest)

/-- Python `int(s)` on an optionally signed decimal literal (after stripping
whitespace); `none` models `ValueError`. -/
def digitsToNat : List Char → Nat → Nat
  | [], acc => acc
  | c :: cs, acc => digitsToNat cs (acc * 10 + (c.toNat - '0'.toNat))

def pyInt? (xs : List Char) : Option Int :=
  let s := pyStrip xs
  let core : List Char → Option Int := fun ds =>
    if ds ≠ [] ∧ ds.all Char.isDigit then some (digitsToNat ds 0) else none
  match s with
  | '-' :: rest => (core rest).map (fun n => -n)
  | '+' :: rest => core rest
  | _ => core s

/-- Python `float(s)` restricted to plain decimal literals (optional sign,
digits with at most one point, at least one digit); other inputs model
`ValueError` as `none`.  The value is kept exact as a rational. -/
def pyFloat? (xs : List Char) : Option ℚ :=
  let s := pyStrip xs
  let core : List Char → Option ℚ := fun ds =>
    let ip := ds.takeWhile Char.isDigit
    let rest := ds.dropWhile Char.isDigit
    match rest with
    | [] => if ip ≠ [] then some (mkRat (digitsToNat ip 0) 1) else none
    | '.' :: fp =>
      if fp.all Char.isDigit ∧ (ip ≠ [] ∨ fp ≠ []) then
        some (mkRat (digitsToNat ip 0 * 10 ^ fp.length + digitsToNat fp 0)
          (10 ^ fp.length))
      else none
    | _ => none
  match s with
  | '-' :: rest => (core rest).map (fun q => -q)
  | '+' :: rest => core rest
  | _ => core s

/-- Python `int(x)` on a float: truncation toward zero. -/
def pyTrunc (q : ℚ) : Int :=
  q.num.tdiv q.den

/-- A Python list comprehension whose body may raise, modelled as an
`Option`-valued map that fails as soon as one element fails. -/
def mapMO (f : α → Option β) : List α → Option (List β)
  | [] => some []
  | x :: xs => do
    let y ← f x
    let ys ← mapMO f xs
    some (y :: ys)

end PyStr

namespace PyDict

/-- A Python `dict` with string keys: insertion-ordered association list
with distinct keys (maintained by `dinsert`). -/
abbrev Dict (α : Type) := List (List Char × α)

/-- A Python `dict[str, str]`. -/
abbrev StrState := Dict (List Char)

/-- `d[k] = v`: replace the value in place if the key exists, else append. -/
def dinsert (d : Dict α) (k : List Char) (v : α) : Dict α :=
  match d with
  | [] => [(k, v)]
  | (k', v') :: rest =>
    if k' = k then (k', v) :: rest else (k', v') :: dinsert rest k v

/-- `d1 | d2` / `d1 |= d2`: entries of `d2` override those of `d1`. -/
def dunion (d1 d2 : Dict α) : Dict α :=
  d2.foldl (fun acc kv => dinsert acc kv.1 kv.2) d1

/-- `d.get(k)`. -/
def dlookup (d : Dict α) (k : List Char) : Option α :=
  match d with
  | [] => none
  | (k', v) :: rest => if k' = k then some v else dlookup rest k

/-- The keys of a Python dict are distinct. -/
abbrev keysNodup (d : Dict α) : Prop :=
  (d.map Prod.fst).Nodup

end PyDict

namespace Outcome

open PyStr PyDict

/-- `Verdict` (outcome.py): three-valued result of a property check. -/
inductive Verdict
  | TRUE
  | FALSE
  | UNKNOWN
  deriving DecidableEq, Repr

/-- `Value = str | int | float | bool` (outcome.py). -/
inductive Value
  | str (s : List Char)
  | int (i : Int)
  | float (q : ℚ)
  | bool (b : Bool)
  deriving DecidableEq, Repr

/-- The inner `try_parse` of `Trace.parsed_states` (outcome.py lines 83-91),
embedded exactly as written.  Note that the source tests
`parsed.is_integer` — the *method object*, not a call `parsed.is_integer()` —
which is always truthy, so every successfully float-parsed value is truncated
with `int(parsed)`; the `else parsed` branch is dead code. -/
def try_parse (value : List Char) : Value :=
  if value = "TRUE".data ∨ value = "FALSE".data then
    Value.bool (value = "TRUE".data)
  else
    match pyFloat? value with
    | some parsed => Value.int (pyTrunc parsed)
    | none => Value.str value

/-- The `Trace` dataclass (outcome.py): the frozenset of loop indices is
modelled as the sorted list of flagged positions. -/
structure Trace where
  trace_description : List Char
  trace_type : List Char
  states : List StrState
  loop_indexes : List Nat
  deriving Repr

/-- Loop body of `Trace.parse_state` (outcome.py lines 45-54): fold over the
lines, re-binding `loop_starts_next` at every line, inserting `lhs = rhs`
bindings from non-comment non-blank lines; `none` models the `ValueError`
raised when `line.split("=")` does not have exactly two pieces. -/
def parse_state_go : List (List Char) → StrState → Bool → Option (StrState × Bool)
  | [], st, flag => some (st, flag)
  | line :: rest, st, flag =>
    let l := pyStrip line
    let flag' := startsWith "-- Loop starts here".data l
    if l ≠ [] ∧ ¬ startsWith "--".data l then
      match splitOnL "=".data l with
      | [lhs, rhs] => parse_state_go rest (dinsert st (pyStrip lhs) (pyStrip rhs)) flag'
      | _ => none
    else
      parse_state_go rest st flag'

/-- `Trace.parse_state` (outcome.py lines 32-54). -/
def parse_state (text : List Char) : Option (StrState × Bool) :=
  parse_state_go (pySplitlines text) [] false

/-- The loop-index set of `Trace.parse_list_of_str`:
`frozenset(i for i, x in enumerate(loop_starts) if x)`. -/
def loopIdx (flags : List Bool) : List Nat :=
  (flags.enum.filter (·.2)).map (·.1)

/-- `Trace.parse_list_of_str` (outcome.py lines 57-61).  `none` covers the
`ValueError` of unpacking `zip(*())` when `states` is empty and any
`parse_state` failure. -/
def parse_list_of_str (states : List (List Char)) : Option (List StrState × List Nat) :=
  if states = [] then none
  else
    (mapMO parse_state states).map fun parsed =>
      (parsed.map Prod.fst, loopIdx (parsed.map Prod.snd))

/-- The part of `Trace.parse` (outcome.py lines 74-80) that runs on `body`,
the text from just after the located `"\nTrace Description:"` marker on:
split on `"->"`, take `split("<-")[1]` of every piece after the first, parse
those state chunks, and read the description/type off the first two lines of
the leading piece.  `none` models the exceptions the Python raises on
malformed input (missing `"<-"` in a state chunk, fewer than two header
lines, missing `"Trace Description:"` / `"Type:"` markers, or a
`parse_state` failure). -/
def parseBody (body : List Char) : Option Trace :=
  match splitOnL "->".data body with
  | [] => none
  | descr_type :: statesRaw => do
    let states ← mapMO (fun s => (splitOnL "<-".data s)[1]?) statesRaw
    let (sts, loop_starts) ← parse_list_of_str states
    match pySplitlines descr_type with
    | descr :: trace_type :: _ => do
      let descr' ← (splitOnL "Trace Description:".data descr)[1]?
      let trace_type' ← (splitOnL "Type:".data trace_type)[1]?
      some ⟨pyStrip descr', pyStrip trace_type', sts, loop_starts⟩
    | _ => none

/-- `Trace.parse` (outcome.py lines 70-80): locate `"\nTrace Description:"`
(`find` yields `-1` when absent, so `text[start+1:]` is the whole text) and
parse the remainder. -/
def Trace.parse (text : List Char) : Option Trace :=
  let start : Int := match pyFind "\nTrace Description:".data text with
    | some i => i
    | none => -1
  parseBody (pySlice text (start + 1) text.length)

/-- The generator body of `Trace.full_states` (outcome.py lines 101-105):
the value of `accum` at each `yield`. -/
def fullStatesGo : StrState → List StrState → List StrState
  | _, [] => []
  | accum, state :: rest =>
    let accum' := dunion accum state
    accum' :: fullStatesGo accum' rest

def Trace.full_states (t : Trace) : List StrState :=
  fullStatesGo [] t.states

/-- The `Outcome` dataclass (outcome.py). -/
structure Outcome where
  logic : List Char
  specification : List Char
  verdict : Verdict
  trace : Option Trace
  unparsed : List Char

/-- One iteration of the `for start, end in pairwise(...)` loop of
`Outcome.parse` (outcome.py lines 136-150). -/
def parseBlock (text : List Char) (a b : Int) : Option Outcome := do
  let text_slice := pySlice text a b
  let verdict :=
    if containsSub "is true".data text_slice then Verdict.TRUE
    else if containsSub "is unknown".data text_slice then Verdict.UNKNOWN
    else Verdict.FALSE
  let header_end : Int := match pyFind "\n".data text_slice with
    | some i => i
    | none => -1
  let header := pyStrip (pySlice text_slice 0 header_end)
  let spaceIdx : Int := match pyFindFrom " ".data header 3 with
    | some i => i
    | none => -1
  let logic := pyStrip (pySlice header 3 spaceIdx)
  let spec0 ← (splitOnL "specification".data header)[1]?
  let spec1 :=
    ["is true".data, "is false".data, "is unknown".data].foldl
      (fun acc s => pyReplace acc s []) spec0
  let spec := pyStrip spec1
  let trace ← if verdict = Verdict.FALSE
    then (Trace.parse text_slice).map some
    else some none
  some ⟨logic, spec, verdict, trace, text_slice⟩

/-- The `places` list built by the find-loops of `Outcome.parse`
(outcome.py lines 127-133): every occurrence index of each of the three
verdict marker phrases. -/
def verdictPlaces (text : List Char) : List Nat :=
  ["is true".data, "is false".data, "is unknown".data].flatMap
    (fun search => findAll search text)

/-- `Outcome.parse` (outcome.py lines 126-150).  The generator is modelled as
the list of all yielded outcomes; `none` models an exception raised while
producing any of them. -/
def Outcome.parse (text : List Char) : Option (List Outcome) :=
  let places0 := verdictPlaces text
  let places := (pySorted places0).map fun place =>
    match pyRFindBefore "--".data text place with
    | some i => (i : Int)
    | none => -1
  mapMO (fun se => parseBlock text se.1 se.2)
    (pyPairwise (places ++ [(text.length : Int)]))

end Outcome

namespace Pyxmv

open PyStr PyDict

/-- The typed error taxonomy of pyxmv.py: `NoBooleanModel` and `NoInputFile`
are the recoverable sub-kinds raised by `PyXmvError.factory`, `err` is a
plain `PyXmvError` carrying the offending lines, `timeout` is
`PyXmvTimeout`. -/
inductive PyErr
  | noBooleanModel (msg : List Char)
  | noInputFile (msg : List Char)
  | err (lines : List (List Char))
  | timeout
  deriving DecidableEq, Repr

/-- `PyXmvError.errs` (pyxmv.py lines 16-25): fatal phrase fragments. -/
def errs : List (List Char) :=
  [ "A model must be read before.".data,
    "illegal operand types".data,
    "Impossible to build a BDD FSM with infinite precision variables".data,
    "Nested next operator".data,
    "No trace: constraint and initial state are inconsistent".data,
    "not well typed".data,
    "TYPE ERROR".data,
    "Type System Violation detected".data,
    "unexpected expression encountered during parsing".data ]

/-- `PyXmvError.factory` (pyxmv.py lines 27-37): scan a transcript for the
recoverable-precondition phrases, then for any fatal fragment, collecting the
matching lines; `none` means no error raised. -/
def factory (msg : List Char) : Option PyErr :=
  if containsSub "The boolean model must be built before.".data msg then
    some (PyErr.noBooleanModel (pyStrip msg))
  else if containsSub "You must set the input file before.".data msg then
    some (PyErr.noInputFile (pyStrip msg))
  else
    let err_lines := (pySplitlines msg).filter
      (fun line => errs.any (fun e => containsSub e line))
    if err_lines ≠ [] then some (PyErr.err err_lines) else none

/-- The engine behind one session, seen through the pseudo-terminal: the
`n`-th await (an `expect_prompt` / `expect` call) returns the transcript
`some out` captured before the prompt, or `none` when the await times out
(pexpect.TIMEOUT). -/
def Engine := Nat → Option (List Char)

/-- `PyXmv.get_output` on the `n`-th await: on timeout raise `PyXmvTimeout`
(after `sendcontrol("c")`), otherwise run `PyXmvError.factory` on the
transcript and return it if no error is raised (pyxmv.py lines 95-101). -/
def get_output (engine : Engine) (n : Nat) : Except PyErr (List Char) :=
  match engine n with
  | none => Except.error PyErr.timeout
  | some out =>
    match factory out with
    | some e => Except.error e
    | none => Except.ok out

/-- The wrapper produced by `nuxmv_cmd` (pyxmv.py lines 103-124 and
nuxmvint.py lines 88-101), applied to a command `cmd`: attempt
`send_and_expect cmd; get_output`; if that raises `NoBooleanModel`, send
`build_boolean_model`, await the prompt (`expect_prompt`, which can only
raise `PyXmvTimeout` — it runs no factory check), then send `cmd` again and
return `get_output`.  Any error of the second attempt propagates; the
returned list records every command line sent, in order. -/
def nuxmv_cmd (engine : Engine) (cmd : List Char) :
    Except PyErr (List Char) × List (List Char) :=
  match get_output engine 0 with
  | Except.error (PyErr.noBooleanModel _) =>
    -- remediation: `self.send_and_expect("build_boolean_model"); self.expect_prompt()`
    match engine 1 with
    | none => (Except.error PyErr.timeout, [cmd, "build_boolean_model".data])
    | some _ =>
      (get_output engine 2, [cmd, "build_boolean_model".data, cmd])
  | Except.error e => (Except.error e, [cmd])
  | Except.ok out => (Except.ok out, [cmd])

/-- The session state tracked by class `PyXmv`: the two sticky readiness
flags, the live configuration mapping `env`, and the defaults `default_env`
recorded right after bootstrap.  Environment values are Python `str | None`
(`get_env` stores `None` for `NULL`). -/
structure PyXmvState where
  go_called : Bool
  go_msat_called : Bool
  env : Dict (Option (List Char))
  default_env : Dict (Option (List Char))

/-- Python `str(value)` as used by `update_env` on a `str | None` value
(`str(None)` is the literal string `"None"`). -/
def pyStrOf : Option (List Char) → List Char
  | none => "None".data
  | some s => s

/-- The state effect of `PyXmv.update_env` (pyxmv.py lines 131-134):
`self.env[name] = str(value)`. -/
def update_env (s : PyXmvState) (name : List Char) (value : Option (List Char)) :
    PyXmvState :=
  { s with env := dinsert s.env name (some (pyStrOf value)) }

/-- The state effect of `PyXmv.reset` (pyxmv.py lines 193-200): clear both
readiness flags; when `reset_env` is true, re-apply `update_env` to every
entry of `default_env` in order; finally the `"reset"` command is sent. -/
def reset (s : PyXmvState) (reset_env : Bool) : PyXmvState :=
  let s' := { s with go_called := false, go_msat_called := false }
  if reset_env then
    s.default_env.foldl (fun acc nv => update_env acc nv.1 nv.2) s'
  else s'

/-- The observable effect of `PyXmv.expect_prompt` / `PyXmv.expect`
(pyxmv.py lines 79-93) on the `n`-th await: on pexpect.TIMEOUT the driver
sends the interrupt control character (`sendcontrol("c")`) to the child and
raises `PyXmvTimeout`; otherwise no control character is sent.  The child
process is never killed or closed by this path, so the session stays alive
either way. -/
structure Session where
  alive : Bool

def expect_prompt (engine : Engine) (n : Nat) (s : Session) :
    Except PyErr Unit × List (List Char) × Session :=
  match engine n with
  | none => (Except.error PyErr.timeout, ["sendcontrol c".data], s)
  | some _ => (Except.ok (), [], s)

/-- `pexpect.spawn.sendline` precondition: a send is accepted exactly when
the child process is alive. -/
def send_accepted (s : Session) : Bool :=
  s.alive

end Pyxmv

namespace Heuristics

open PyStr

/-- Modelled from the spec: the heuristic's "seeded pseudo-random generator"
(`random.Random`, external to the repository).  It is modelled as a pure
linear-congruential generator: the state is a natural seed, each draw
advances the state and `randrange n` reduces the fresh state modulo `n`;
`randrange 0` models the `ValueError` Python raises for an empty range. -/
structure Rng where
  state : Nat
  deriving DecidableEq, Repr

def Rng.next (r : Rng) : Rng :=
  ⟨(r.state * 6364136223846793005 + 1442695040888963407) % 2 ^ 64⟩

def Rng.randrange (r : Rng) (n : Nat) : Option (Nat × Rng) :=
  if n = 0 then none
  else
    let r' := r.next
    some (r'.state % n, r')

/-- `RandomChoice.__init__` with an explicit seed
(simulation_heuristics.py lines 26-27). -/
def RandomChoice.mk (seed : Nat) : Rng :=
  ⟨seed⟩

/-- `RandomChoice.choose_from` (simulation_heuristics.py lines 29-30):
`self.rng.randrange(len(states))`, threading the generator state. -/
def RandomChoice.choose_from (r : Rng) (states : List α) : Option (Nat × Rng) :=
  r.randrange states.length

/-- A whole run of one `RandomChoice` instance over a sequence of candidate
lists, returning the chosen indices. -/
def RandomChoice.run (r : Rng) : List (List α) → Option (List Nat)
  | [] => some []
  | states :: rest => do
    let (i, r') ← RandomChoice.choose_from r states
    let is ← RandomChoice.run r' rest
    some (i :: is)

/-- `UserChoice.choose_from` (simulation_heuristics.py lines 37-48) with the
interactive `input()` calls modelled as a list of reply strings consumed in
order: a zero-length candidate list returns 0 before any prompt; otherwise
the loop prompts until a reply parses as an integer in `[0, bound)`
(a non-integer reply models `ValueError`, handled by re-prompting).  The
result pairs the choice with the replies left unconsumed; `none` means the
replies ran out while the loop still wanted input. -/
def userChoose (bound : Nat) : List (List Char) → Option (Nat × List (List Char))
  | [] => if bound = 0 then some (0, []) else none
  | reply :: rest =>
    if bound = 0 then some (0, reply :: rest)
    else
      match pyInt? reply with
      | some k => if 0 ≤ k ∧ k < (bound : Int) then some (k.toNat, rest) else userChoose bound rest
      | none => userChoose bound rest

def UserChoice.choose_from (states : List α) (replies : List (List Char)) :
    Option (Nat × List (List Char)) :=
  userChoose states.length replies

end Heuristics

/-! ## Helper lemmas -/

namespace PyDict

theorem dlookup_dinsert (d : Dict α) (k : List Char) (v : α) (k' : List Char) :
    dlookup (dinsert d k v) k' = if k = k' then some v else dlookup d k' := by
  induction d with
  | nil => by_cases h : k = k' <;> simp [dinsert, dlookup, h]
  | cons kv rest ih =>
    obtain ⟨k1, v1⟩ := kv
    by_cases h1 : k1 = k
    · subst h1
      by_cases h2 : k1 = k' <;> simp [dinsert, dlookup, h2]
    · by_cases h2 : k1 = k'
      · subst h2
        have : ¬ k = k1 := fun h => h1 h.symm
        simp [dinsert, dlookup, h1, this]
      · simp [dinsert, dlookup, h1, h2, ih]

theorem dlookup_eq_none_of_not_mem (d : Dict α) (k : List Char)
    (h : k ∉ d.map Prod.fst) : dlookup d k = none := by
  induction d with
  | nil => rfl
  | cons kv rest ih =>
    simp only [List.map_cons, List.mem_cons] at h
    push_neg at h
    have : ¬ kv.1 = k := fun hx => h.1 hx.symm
    obtain ⟨k1, v1⟩ := kv
    simpa [dlookup, this] using ih h.2

theorem dlookup_dunion (d1 d2 : Dict α) (hnd : keysNodup d2) (k : List Char) :
    dlookup (dunion d1 d2) k = (dlookup d2 k).orElse (fun _ => dlookup d1 k) := by
  induction d2 generalizing d1 with
  | nil => simp [dunion, dlookup, Option.orElse]
  | cons kv rest ih =>
    obtain ⟨k2, v2⟩ := kv
    simp only [keysNodup, List.map_cons, List.nodup_cons] at hnd
    have hstep : dunion d1 ((k2, v2) :: rest) = dunion (dinsert d1 k2 v2) rest := rfl
    rw [hstep, ih _ hnd.2]
    by_cases h : k2 = k
    · subst h
      have hnone : dlookup rest k2 = none :=
        dlookup_eq_none_of_not_mem rest k2 hnd.1
      simp [dlookup, hnone, dlookup_dinsert, Option.orElse]
    · simp [dlookup, h, dlookup_dinsert, Option.orElse]

theorem dlookup_foldl_dunion (l : List (Dict α)) (d : Dict α)
    (hnd : ∀ s ∈ l, keysNodup s) (k : List Char) :
    dlookup (l.foldl dunion d) k =
      l.foldl (fun acc s => (dlookup s k).orElse (fun _ => acc)) (dlookup d k) := by
  induction l generalizing d with
  | nil => rfl
  | cons s rest ih =>
    have hs : keysNodup s := hnd s (List.mem_cons_self s rest)
    have hrest : ∀ x ∈ rest, keysNodup x := fun x hx => hnd x (List.mem_cons_of_mem s hx)
    simp only [List.foldl_cons]
    rw [ih (dunion d s) hrest, dlookup_dunion d s hs k]

end PyDict

namespace PyStr

theorem mapMO_length {f : α → Option β} :
    ∀ {l : List α} {ys : List β}, mapMO f l = some ys → ys.length = l.length := by
  intro l
  induction l with
  | nil => intro ys h; simp [mapMO] at h; simp [← h]
  | cons x xs ih =>
    intro ys h
    simp only [mapMO, Option.bind_eq_bind, Option.bind_eq_some] at h
    obtain ⟨y, _, ys', hys', hcons⟩ := h
    injection hcons with hcons
    subst hcons
    simp [ih hys']

theorem mapMO_getElem? {f : α → Option β} :
    ∀ {l : List α} {ys : List β}, mapMO f l = some ys →
      ∀ (i : Nat) (y : β), ys[i]? = some y → ∃ x, l[i]? = some x ∧ f x = some y := by
  intro l
  induction l with
  | nil =>
    intro ys h i y hy
    simp only [mapMO, Option.some.injEq] at h
    subst h
    simp at hy
  | cons x xs ih =>
    intro ys h
    simp only [mapMO, Option.bind_eq_bind, Option.bind_eq_some] at h
    obtain ⟨y0, hy0, ys', hys', hcons⟩ := h
    injection hcons with hcons
    subst hcons
    intro i y hy
    match i with
    | 0 =>
      simp only [List.getElem?_cons_zero, Option.some.injEq] at hy
      exact ⟨x, by simp, hy ▸ hy0⟩
    | i + 1 =>
      simp only [List.getElem?_cons_succ] at hy
      obtain ⟨x', hx', hfx'⟩ := ih hys' i y hy
      exact ⟨x', by simpa using hx', hfx'⟩

end PyStr

namespace Outcome

open PyStr PyDict

theorem fullStatesGo_getElem? :
    ∀ (l : List StrState) (acc : StrState) (i : Nat), i < l.length →
      (fullStatesGo acc l)[i]? = some ((l.take (i + 1)).foldl dunion acc) := by
  intro l
  induction l with
  | nil => intro acc i h; simp at h
  | cons s rest ih =>
    intro acc i h
    match i with
    | 0 => simp [fullStatesGo]
    | i + 1 =>
      have hi : i < rest.length := by simpa using h
      simpa only [fullStatesGo, List.getElem?_cons_succ, List.take_succ_cons,
        List.foldl_cons] using ih (dunion acc s) i hi

end Outcome

/-! ## Claims -/

section Claims

open PyStr PyDict Outcome Pyxmv Heuristics

/-- C4: for every Trace whose states are per-step delta mappings (distinct
keys inside each delta, as in a Python dict), the i-th element produced by
`full_states` equals the left-fold union of `deltas[0..i]`, and looking any
key up in that union returns the value of the latest delta containing the
key — later deltas override earlier ones. -/
theorem full_states_eq_prefix_fold (t : Outcome.Trace) (i : Nat)
    (h : i < t.states.length) (hnd : ∀ s ∈ t.states, keysNodup s) :
    t.full_states[i]? = some ((t.states.take (i + 1)).foldl dunion []) ∧
    ∀ k, dlookup ((t.states.take (i + 1)).foldl dunion []) k =
      (t.states.take (i + 1)).foldl
        (fun acc s => (dlookup s k).orElse (fun _ => acc)) none := by
  constructor
  · exact fullStatesGo_getElem? t.states [] i h
  · intro k
    have hnd' : ∀ s ∈ t.states.take (i + 1), keysNodup s :=
      fun s hs => hnd s (List.mem_of_mem_take hs)
    simpa using dlookup_foldl_dunion (t.states.take (i + 1)) [] hnd' k

/-- Witness for C4 at a concrete two-delta trace. -/
theorem full_states_eq_prefix_fold_witness :
    1 < ([[("a".data, "1".data)], [("a".data, "2".data), ("b".data, "3".data)]]
      : List StrState).length ∧
    (Outcome.Trace.mk [] [] [[("a".data, "1".data)],
      [("a".data, "2".data), ("b".data, "3".data)]] []).full_states[1]? =
      some (((Outcome.Trace.mk [] [] [[("a".data, "1".data)],
        [("a".data, "2".data), ("b".data, "3".data)]] []).states.take 2).foldl
          dunion []) :=
  ⟨by decide,
   (full_states_eq_prefix_fold
      (Outcome.Trace.mk [] [] [[("a".data, "1".data)],
        [("a".data, "2".data), ("b".data, "3".data)]] []) 1
      (by decide) (by decide)).1⟩

/-- C3: the typed-value coercion at the spec's example inputs.  The literals
"TRUE"/"FALSE" become booleans, "3" the integer 3 and "abc" stays a string
as claimed, but "3.5" is coerced to the *integer* 3, not the float 3.5: the
source's guard reads `parsed.is_integer` — the method object, which is always
truthy — instead of calling `parsed.is_integer()`, so the float branch is
dead code and every numeric literal is truncated. -/
theorem try_parse_examples :
    try_parse "TRUE".data = Value.bool true ∧
    try_parse "FALSE".data = Value.bool false ∧
    try_parse "3".data = Value.int 3 ∧
    try_parse "abc".data = Value.str "abc".data ∧
    try_parse "3.5".data = Value.int 3 ∧
    try_parse "3.5".data ≠ Value.float (mkRat 7 2) := by
  refine ⟨by decide, by decide, by decide, by decide, by decide, by decide⟩

/-- C10: the random heuristic is deterministic given its seed — two
RandomChoice instances constructed from the same explicit seed return the
same index sequence on identical sequences of candidate lists. -/
theorem randomChoice_deterministic {α : Type} (seed : Nat) (r1 r2 : Rng)
    (h1 : r1 = RandomChoice.mk seed) (h2 : r2 = RandomChoice.mk seed)
    (ls : List (List α)) :
    RandomChoice.run r1 ls = RandomChoice.run r2 ls := by
  subst h1; subst h2; rfl

/-- Witness for C10: seed 42 over two concrete candidate lists. -/
theorem randomChoice_deterministic_witness :
    RandomChoice.mk 42 = RandomChoice.mk 42 ∧
    RandomChoice.run (RandomChoice.mk 42) [[0, 1, 2], [0]] =
      RandomChoice.run (RandomChoice.mk 42) [[0, 1, 2], [0]] :=
  ⟨rfl, randomChoice_deterministic 42 _ _ rfl rfl [[0, 1, 2], [0]]⟩

/-- C6: when an await times out, the driver sends the interrupt control
character to the child, raises PyXmvTimeout, and leaves the session alive,
so a subsequent send is accepted. -/
theorem expect_prompt_timeout_interrupts (engine : Engine) (n : Nat)
    (s : Session) (halive : s.alive = true) (htimeout : engine n = none) :
    expect_prompt engine n s =
      (Except.error PyErr.timeout, ["sendcontrol c".data], s) ∧
    send_accepted (expect_prompt engine n s).2.2 = true := by
  refine ⟨by simp [expect_prompt, htimeout], ?_⟩
  simp [expect_prompt, htimeout, send_accepted, halive]

/-- Witness for C6: a concrete always-timing-out engine and a live session. -/
theorem expect_prompt_timeout_interrupts_witness :
    expect_prompt (fun _ => none) 0 ⟨true⟩ =
      (Except.error PyErr.timeout, ["sendcontrol c".data], ⟨true⟩) ∧
    send_accepted (expect_prompt (fun _ => none) 0 ⟨true⟩).2.2 = true :=
  expect_prompt_timeout_interrupts (fun _ => none) 0 ⟨true⟩ rfl rfl

/-- C1: if the first attempt of a `nuxmv_cmd`-wrapped command raises the
NoBooleanModel recoverable condition, the wrapper sends
`build_boolean_model` exactly once, awaits its completion, and resends the
original command verbatim exactly once — the full send log is
`[cmd, build_boolean_model, cmd]` — and the result of the whole call is
exactly the result of the retried attempt, so any failure of the retry
propagates unchanged to the caller with no further retry or remediation. -/
theorem nuxmv_cmd_retry_once (engine : Engine) (cmd m : List Char)
    (hfirst : get_output engine 0 = Except.error (PyErr.noBooleanModel m))
    (hbuild : engine 1 ≠ none) :
    (nuxmv_cmd engine cmd).2 = [cmd, "build_boolean_model".data, cmd] ∧
    (nuxmv_cmd engine cmd).1 = get_output engine 2 ∧
    ∀ e, get_output engine 2 = Except.error e →
      (nuxmv_cmd engine cmd).1 = Except.error e := by
  obtain ⟨out1, hout1⟩ := Option.ne_none_iff_exists'.mp hbuild
  refine ⟨by simp [nuxmv_cmd, hfirst, hout1], by simp [nuxmv_cmd, hfirst, hout1], ?_⟩
  intro e he
  simp [nuxmv_cmd, hfirst, hout1, he]

/-- Witness for C1: an engine whose first transcript carries the
boolean-model-missing phrase and whose retry transcript carries a fatal
phrase. -/
theorem nuxmv_cmd_retry_once_witness :
    get_output
        (fun n => if n = 0 then some "The boolean model must be built before.".data
          else if n = 1 then some [] else some "TYPE ERROR x".data) 0 =
      Except.error (PyErr.noBooleanModel
        "The boolean model must be built before.".data) ∧
    (nuxmv_cmd
        (fun n => if n = 0 then some "The boolean model must be built before.".data
          else if n = 1 then some [] else some "TYPE ERROR x".data)
        "check_ltlspec_ic3".data).2 =
      ["check_ltlspec_ic3".data, "build_boolean_model".data,
        "check_ltlspec_ic3".data] :=
  ⟨rfl,
   (nuxmv_cmd_retry_once
      (fun n => if n = 0 then some "The boolean model must be built before.".data
        else if n = 1 then some [] else some "TYPE ERROR x".data)
      "check_ltlspec_ic3".data
      "The boolean model must be built before.".data
      rfl (by decide)).1⟩

/-- C7 counterexample: a session whose environment gained a key (`foo`) not
present in the recorded defaults.  A full reset re-applies the defaults but
does not remove the extra key, so the configuration mapping after
`reset(reset_env=True)` is **not** the recorded default mapping, contrary to
the claim that a full reset "restores the configuration mapping to its
recorded defaults". -/
theorem reset_env_counterexample :
    (Pyxmv.reset
        ⟨true, true,
          [("a".data, some "1".data), ("foo".data, some "bar".data)],
          [("a".data, some "1".data)]⟩ true).env ≠
      (⟨true, true,
          [("a".data, some "1".data), ("foo".data, some "bar".data)],
          [("a".data, some "1".data)]⟩ : PyXmvState).default_env := by
  decide

theorem update_env_foldl_flags (l : Dict (Option (List Char))) :
    ∀ acc : PyXmvState,
      ((l.foldl (fun a nv => update_env a nv.1 nv.2) acc).go_called = acc.go_called ∧
       (l.foldl (fun a nv => update_env a nv.1 nv.2) acc).go_msat_called =
         acc.go_msat_called) := by
  induction l with
  | nil => intro acc; exact ⟨rfl, rfl⟩
  | cons nv rest ih => intro acc; simpa using ih (update_env acc nv.1 nv.2)

theorem update_env_foldl_env (l : Dict (Option (List Char))) :
    ∀ acc : PyXmvState,
      (l.foldl (fun a nv => update_env a nv.1 nv.2) acc).env =
        l.foldl (fun e nv => dinsert e nv.1 (some (pyStrOf nv.2))) acc.env := by
  induction l with
  | nil => intro acc; rfl
  | cons nv rest ih => intro acc; simpa using ih (update_env acc nv.1 nv.2)

theorem dlookup_foldl_dinsert {β γ : Type} (f : β → γ) :
    ∀ (l : Dict β), keysNodup l → ∀ e : Dict γ,
      (∀ k v, (k, v) ∈ l →
        dlookup (l.foldl (fun acc nv => dinsert acc nv.1 (f nv.2)) e) k = some (f v)) ∧
      (∀ k, k ∉ l.map Prod.fst →
        dlookup (l.foldl (fun acc nv => dinsert acc nv.1 (f nv.2)) e) k = dlookup e k) := by
  intro l
  induction l with
  | nil => intro _ e; exact ⟨by simp, fun _ _ => rfl⟩
  | cons nv rest ih =>
    intro hnd e
    obtain ⟨k1, v1⟩ := nv
    simp only [keysNodup, List.map_cons, List.nodup_cons] at hnd
    have ihm := ih hnd.2 (dinsert e k1 (f v1))
    constructor
    · intro k v hkv
      rcases List.mem_cons.mp hkv with heq | hmem
      · injection heq with hk hv
        subst hk; subst hv
        have := ihm.2 k hnd.1
        simpa [dlookup_dinsert] using this
      · simpa using ihm.1 k v hmem
    · intro k hk
      simp only [List.map_cons, List.mem_cons] at hk
      push_neg at hk
      have h1 : k1 ≠ k := fun h => hk.1 h.symm
      have := ihm.2 k hk.2
      simpa [dlookup_dinsert, h1] using this

/-- C7 amended: every `reset` clears both readiness flags; a plain reset
(`reset_env=False`) leaves the configuration mapping untouched; a full reset
(`reset_env=True`) re-applies `update_env` to every recorded default, so
each key recorded in `default_env` afterwards maps to `str(default value)`,
while keys absent from the defaults keep their previous values (they are not
removed — the mapping is not restored to the default mapping itself). -/
theorem reset_clears_flags_and_reapplies_defaults (s : PyXmvState)
    (hnd : keysNodup s.default_env) :
    (∀ re, (Pyxmv.reset s re).go_called = false ∧
      (Pyxmv.reset s re).go_msat_called = false) ∧
    (Pyxmv.reset s false).env = s.env ∧
    (∀ k v, (k, v) ∈ s.default_env →
      dlookup (Pyxmv.reset s true).env k = some (some (pyStrOf v))) ∧
    (∀ k, k ∉ s.default_env.map Prod.fst →
      dlookup (Pyxmv.reset s true).env k = dlookup s.env k) := by
  have henv : (Pyxmv.reset s true).env =
      s.default_env.foldl (fun e nv => dinsert e nv.1 (some (pyStrOf nv.2))) s.env := by
    simpa [Pyxmv.reset] using
      update_env_foldl_env s.default_env { s with go_called := false, go_msat_called := false }
  have hlk := dlookup_foldl_dinsert (fun v => some (pyStrOf v)) s.default_env hnd s.env
  refine ⟨?_, rfl, ?_, ?_⟩
  · intro re
    cases re with
    | false => exact ⟨rfl, rfl⟩
    | true =>
      simpa [Pyxmv.reset] using
        update_env_foldl_flags s.default_env
          { s with go_called := false, go_msat_called := false }
  · intro k v hkv
    rw [henv]
    exact hlk.1 k v hkv
  · intro k hk
    rw [henv]
    exact hlk.2 k hk

/-- Witness for the amended C7 at a concrete session. -/
theorem reset_clears_flags_witness :
    keysNodup ([("a".data, some "1".data)] : Dict (Option (List Char))) ∧
    (Pyxmv.reset
        ⟨true, true,
          [("a".data, some "1".data), ("foo".data, some "bar".data)],
          [("a".data, some "1".data)]⟩ true).go_called = false :=
  ⟨by decide,
   ((reset_clears_flags_and_reapplies_defaults
      ⟨true, true,
        [("a".data, some "1".data), ("foo".data, some "bar".data)],
        [("a".data, some "1".data)]⟩ (by decide)).1 true).1⟩

/-- C8 counterexample: on a zero-length candidate list the interactive
heuristic returns index 0, which is not in the empty range
`[0, len(candidates))`, and the random heuristic raises (`randrange(0)` is a
ValueError) instead of returning an index — so "for every candidate list,
chooseFrom returns an index in [0, len(candidates))" fails at `[]`. -/
theorem choose_from_empty_counterexample :
    UserChoice.choose_from ([] : List (List Char)) [] = some (0, []) ∧
    ¬ (0 < ([] : List (List Char)).length) ∧
    RandomChoice.choose_from (RandomChoice.mk 0) ([] : List (List Char)) = none := by
  exact ⟨rfl, by decide, rfl⟩

theorem userChoose_lt (bound : Nat) (hb : bound ≠ 0) :
    ∀ (replies : List (List Char)) (i : Nat) (rest : List (List Char)),
      userChoose bound replies = some (i, rest) → i < bound := by
  intro replies
  induction replies with
  | nil => intro i rest h; simp [userChoose, hb] at h
  | cons reply rs ih =>
    intro i rest h
    simp only [userChoose, hb, if_false] at h
    rcases hint : pyInt? reply with _ | k
    · rw [hint] at h
      exact ih i rest h
    · rw [hint] at h
      dsimp only at h
      by_cases hk : 0 ≤ k ∧ k < (bound : Int)
      · rw [if_pos hk] at h
        injection h with hpair
        injection hpair with h1 h2
        omega
      · rw [if_neg hk] at h
        exact ih i rest h

/-- C8 amended: for every **non-empty** candidate list both built-in
heuristics return an index in `[0, len(candidates))`; out-of-range or
non-numeric interactive input re-prompts (the reply is consumed and the loop
continues on the remaining replies, never yielding an out-of-range result);
a zero-length candidate list makes the interactive variant return 0 without
prompting (no reply consumed), while the random variant raises. -/
theorem choose_from_in_range {α : Type} (states : List α) (r : Rng)
    (replies : List (List Char)) (h : states ≠ []) :
    (∃ i r', RandomChoice.choose_from r states = some (i, r') ∧ i < states.length) ∧
    (∀ i rest, UserChoice.choose_from states replies = some (i, rest) →
      i < states.length) ∧
    (∀ reply rest, pyInt? reply = none →
      userChoose states.length (reply :: rest) = userChoose states.length rest) ∧
    (∀ reply rest (k : Int), pyInt? reply = some k →
      (k < 0 ∨ (states.length : Int) ≤ k) →
      userChoose states.length (reply :: rest) = userChoose states.length rest) ∧
    (∀ rs, UserChoice.choose_from ([] : List α) rs = some (0, rs)) := by
  have hlen : states.length ≠ 0 := by
    simpa [List.length_eq_zero] using h
  have hpos : 0 < states.length := Nat.pos_of_ne_zero hlen
  refine ⟨?_, ?_, ?_, ?_, ?_⟩
  · refine ⟨r.next.state % states.length, r.next, ?_, Nat.mod_lt _ hpos⟩
    simp [RandomChoice.choose_from, Rng.randrange, hlen]
  · intro i rest hu
    exact userChoose_lt states.length hlen replies i rest hu
  · intro reply rest hint
    simp [userChoose, hlen, hint]
  · intro reply rest k hint hout
    have hk : ¬ (0 ≤ k ∧ k < (states.length : Int)) := by
      rcases hout with h1 | h1
      · exact fun hc => absurd hc.1 (by omega)
      · exact fun hc => absurd hc.2 (by omega)
    simp [userChoose, hlen, hint, hk]
  · intro rs
    cases rs <;> rfl

/-- Witness for the amended C8 at a concrete singleton candidate list. -/
theorem choose_from_in_range_witness :
    ([5] : List Nat) ≠ [] ∧
    (∃ i r', RandomChoice.choose_from (RandomChoice.mk 1) ([5] : List Nat) =
      some (i, r') ∧ i < ([5] : List Nat).length) :=
  ⟨by decide,
   (choose_from_in_range ([5] : List Nat) (RandomChoice.mk 1) ["0".data]
      (by decide)).1⟩

/-- C9: a transcript containing none of the three verdict marker phrases
produces an empty `places` list, hence no report blocks and no outcomes. -/
theorem outcome_parse_no_marker (text : List Char)
    (h : verdictPlaces text = []) :
    Outcome.Outcome.parse text = some [] := by
  unfold Outcome.Outcome.parse
  rw [h]
  rfl

/-- Witness for C9 at a concrete marker-free transcript. -/
theorem outcome_parse_no_marker_witness :
    verdictPlaces "no verdicts here".data = [] ∧
    Outcome.Outcome.parse "no verdicts here".data = some [] :=
  ⟨by decide, outcome_parse_no_marker "no verdicts here".data (by decide)⟩

/-- C2 counterexample: the text `"is true"` contains exactly one occurrence
of the verdict marker phrases, yet `Outcome.parse` raises instead of
returning one Outcome: `rfind("--", 0, place)` yields `-1`, the resulting
`text[-1:]` slice is the single character `"e"`, its verdict falls through
to FALSE, and `Trace.parse("e")` raises (no `"->"`-separated states), so no
Outcome is produced. -/
theorem outcome_parse_single_marker_counterexample :
    (verdictPlaces "is true".data).length = 1 ∧
    Outcome.Outcome.parse "is true".data = none := by
  exact ⟨by decide, rfl⟩

theorem parseBlock_trace_iff (text : List Char) (a b : Int)
    (o : Outcome.Outcome) (h : parseBlock text a b = some o) :
    o.trace.isSome ↔ o.verdict = Verdict.FALSE := by
  cases hc1 : containsSub "is true".data (pySlice text a b) with
  | true =>
    simp only [parseBlock, hc1, Option.bind_eq_bind, Option.some_bind,
      if_true, reduceIte, reduceCtorEq, Option.bind_eq_some,
      Option.some.injEq] at h
    obtain ⟨spec0, hspec0, hfinal⟩ := h
    subst hfinal
    simp
  | false =>
    cases hc2 : containsSub "is unknown".data (pySlice text a b) with
    | true =>
      simp only [parseBlock, hc1, hc2, Option.bind_eq_bind, Option.some_bind,
        if_true, Bool.false_eq_true, if_false, reduceIte, reduceCtorEq,
        Option.bind_eq_some, Option.some.injEq] at h
      obtain ⟨spec0, hspec0, hfinal⟩ := h
      subst hfinal
      simp
    | false =>
      simp only [parseBlock, hc1, hc2, Option.bind_eq_bind, Option.some_bind,
        Bool.false_eq_true, if_false, reduceIte, Option.bind_eq_some,
        Option.some.injEq, Option.map_eq_some'] at h
      obtain ⟨spec0, hspec0, trace, ⟨tr, htr, htrace⟩, hfinal⟩ := h
      subst htrace
      subst hfinal
      simp

/-- C2 amended: whenever `Outcome.parse` **succeeds** on a transcript
containing exactly one occurrence of the verdict marker phrases, it returns
exactly one Outcome; and every Outcome it ever produces carries a trace if
and only if its verdict is FALSE.  (As stated the claim fails: on a
one-marker transcript with no comment-prefixed header block, such as the
bare text "is true", the parse raises instead of returning an Outcome.) -/
theorem outcome_parse_single_marker (text : List Char)
    (os : List Outcome.Outcome)
    (h1 : (verdictPlaces text).length = 1)
    (h2 : Outcome.Outcome.parse text = some os) :
    os.length = 1 ∧ ∀ o ∈ os, (o.trace.isSome ↔ o.verdict = Verdict.FALSE) := by
  obtain ⟨x, hx⟩ := List.length_eq_one.mp h1
  unfold Outcome.Outcome.parse at h2
  rw [hx] at h2
  simp only [pySorted, insertSorted, List.map_cons, List.map_nil,
    List.cons_append, List.nil_append, pyPairwise, mapMO,
    Option.bind_eq_bind, Option.bind_eq_some] at h2
  obtain ⟨o, ho, rest, hrest, hos⟩ := h2
  injection hrest with hrest
  subst hrest
  injection hos with hos
  subst hos
  refine ⟨rfl, ?_⟩
  intro o' ho'
  rcases List.mem_singleton.mp ho' with rfl
  exact parseBlock_trace_iff text _ _ o' ho

/-- Witness for the amended C2 at a concrete well-formed one-property
transcript. -/
theorem outcome_parse_single_marker_witness :
    (verdictPlaces "-- LTL specification x is true\n".data).length = 1 ∧
    ∃ os, Outcome.Outcome.parse "-- LTL specification x is true\n".data = some os ∧
      os.length = 1 :=
  ⟨by decide,
   ⟨[⟨"LTL".data, "x".data, Verdict.TRUE, none,
      "-- LTL specification x is true\n".data⟩], rfl,
    (outcome_parse_single_marker "-- LTL specification x is true\n".data
      [⟨"LTL".data, "x".data, Verdict.TRUE, none,
        "-- LTL specification x is true\n".data⟩]
      (by decide) rfl).1⟩⟩

theorem splitOnFuel_structure (sep : List Char) :
    ∀ (fuel : Nat) (xs : List Char), ∃ y ys, splitOnFuel sep fuel xs = y :: ys ∧
      y <+: xs ∧ ∀ z ∈ ys, z <:+: xs := by
  intro fuel
  induction fuel with
  | zero => intro xs; exact ⟨xs, [], rfl, List.prefix_refl xs, by simp⟩
  | succ fuel ih =>
    intro xs
    cases xs with
    | nil => exact ⟨[], [], rfl, List.nil_prefix, by simp⟩
    | cons x xs' =>
      by_cases hsep : sep ≠ [] ∧ sep.isPrefixOf (x :: xs') = true
      · obtain ⟨y', ys', heq, hy', hys'⟩ := ih (List.drop sep.length (x :: xs'))
        refine ⟨[], splitOnFuel sep fuel (List.drop sep.length (x :: xs')),
          by simp [splitOnFuel, hsep], List.nil_prefix, ?_⟩
        intro z hz
        have hzinf : z <:+: List.drop sep.length (x :: xs') := by
          rw [heq] at hz
          rcases List.mem_cons.mp hz with rfl | hz'
          · exact hy'.isInfix
          · exact hys' z hz'
        exact hzinf.trans (List.drop_suffix _ _).isInfix
      · obtain ⟨y', ys', heq, hy', hys'⟩ := ih xs'
        refine ⟨x :: y', ys', ?_, ?_, ?_⟩
        · simp only [splitOnFuel]
          rw [if_neg hsep, heq]
        · exact List.cons_prefix_cons.mpr ⟨rfl, hy'⟩
        · intro z hz
          exact (hys' z hz).trans (List.suffix_cons x xs').isInfix

theorem infix_of_mem_splitOn {sep xs z : List Char} (h : z ∈ splitOnL sep xs) :
    z <:+: xs := by
  obtain ⟨y, ys, heq, hy, hys⟩ := splitOnFuel_structure sep xs.length xs
  rw [splitOnL, heq] at h
  rcases List.mem_cons.mp h with rfl | h'
  · exact hy.isInfix
  · exact hys z h'

theorem infix_of_mem_splitlines {xs l : List Char} (h : l ∈ pySplitlines xs) :
    l <:+: xs := by
  simp only [pySplitlines] at h
  split at h
  · simp at h
  · split at h
    · exact infix_of_mem_splitOn ((List.dropLast_sublist _).subset h)
    · exact infix_of_mem_splitOn h

theorem infix_of_pyStrip (xs : List Char) : pyStrip xs <:+: xs := by
  have h1 : xs.dropWhile pyIsSpace <:+ xs := List.dropWhile_suffix _
  have h2 : (xs.dropWhile pyIsSpace).reverse.dropWhile pyIsSpace <:+
      (xs.dropWhile pyIsSpace).reverse := List.dropWhile_suffix _
  have h3 : pyStrip xs <+: xs.dropWhile pyIsSpace := by
    have := List.reverse_prefix.mpr h2
    simpa [pyStrip] using this
  exact h3.isInfix.trans h1.isInfix

theorem infix_of_startsWith {sub l : List Char} (h : startsWith sub l = true) :
    sub <:+: l :=
  (List.isPrefixOf_iff_prefix.mp h).isInfix

theorem infix_of_pySlice (xs : List Char) (a b : Int) : pySlice xs a b <:+: xs :=
  (List.take_prefix _ _).isInfix.trans (List.drop_suffix _ _).isInfix

theorem parse_state_go_true :
    ∀ (lines : List (List Char)) (st : StrState) (flag : Bool) (st' : StrState),
      parse_state_go lines st flag = some (st', true) →
      flag = true ∨
        ∃ line ∈ lines, startsWith "-- Loop starts here".data (pyStrip line) = true := by
  intro lines
  induction lines with
  | nil =>
    intro st flag st' h
    simp only [parse_state_go, Option.some.injEq, Prod.mk.injEq] at h
    exact Or.inl h.2
  | cons line rest ih =>
    intro st flag st' h
    simp only [parse_state_go] at h
    split at h
    · split at h
      · rcases ih _ _ _ h with hflag | ⟨l', hl', hsw⟩
        · exact Or.inr ⟨line, List.mem_cons_self _ _, hflag⟩
        · exact Or.inr ⟨l', List.mem_cons_of_mem _ hl', hsw⟩
      · exact absurd h (by simp)
    · rcases ih _ _ _ h with hflag | ⟨l', hl', hsw⟩
      · exact Or.inr ⟨line, List.mem_cons_self _ _, hflag⟩
      · exact Or.inr ⟨l', List.mem_cons_of_mem _ hl', hsw⟩

theorem infix_of_parse_state_true {chunk : List Char} {st : StrState}
    (h : parse_state chunk = some (st, true)) :
    "-- Loop starts here".data <:+: chunk := by
  rcases parse_state_go_true _ _ _ _ h with hflag | ⟨line, hline, hsw⟩
  · exact absurd hflag (by simp)
  · exact ((infix_of_startsWith hsw).trans (infix_of_pyStrip line)).trans
      (infix_of_mem_splitlines hline)

theorem loopIdx_mem {flags : List Bool} {i : Nat} (h : i ∈ loopIdx flags) :
    flags[i]? = some true := by
  simp only [loopIdx, List.mem_map, List.mem_filter] at h
  obtain ⟨⟨j, b⟩, ⟨hmem, hb⟩, hj⟩ := h
  subst hj
  have := List.mk_mem_enum_iff_getElem?.mp hmem
  simp only at hb
  rwa [hb] at this

theorem parseBody_loop_indexes (body : List Char) (tr : Outcome.Trace)
    (h : parseBody body = some tr) :
    (∀ i ∈ tr.loop_indexes, i < tr.states.length) ∧
    ("Loop starts here".data <:+: body ∨ tr.loop_indexes = []) := by
  unfold parseBody at h
  cases hsplit : splitOnL "->".data body with
  | nil => rw [hsplit] at h; exact absurd h (by simp)
  | cons descr_type statesRaw =>
    rw [hsplit] at h
    dsimp only at h
    simp only [Option.bind_eq_bind, Option.bind_eq_some] at h
    obtain ⟨states, hstates, h⟩ := h
    obtain ⟨⟨sts, loops⟩, hpl, h⟩ := h
    simp only [parse_list_of_str] at hpl
    split at hpl
    · exact absurd hpl (by simp)
    · simp only [Option.map_eq_some'] at hpl
      obtain ⟨parsed, hparsed, hpair⟩ := hpl
      injection hpair with hsts hloops
      cases hlines : pySplitlines descr_type with
      | nil => rw [hlines] at h; exact absurd h (by simp)
      | cons descr rest1 =>
        cases rest1 with
        | nil => rw [hlines] at h; exact absurd h (by simp)
        | cons ttype rest2 =>
          rw [hlines] at h
          dsimp only at h
          simp only [Option.bind_eq_bind, Option.bind_eq_some,
            Option.some.injEq] at h
          obtain ⟨d1, hd1, t1, ht1, htr⟩ := h
          subst htr
          constructor
          · intro i hi
            simp only at hi ⊢
            rw [← hloops] at hi
            have hflag := loopIdx_mem hi
            have hlt : i < (parsed.map Prod.snd).length :=
              (List.getElem?_eq_some_iff.mp hflag).1
            simpa [← hsts] using hlt
          · by_cases hne : loops = []
            · exact Or.inr (by simpa using hne)
            · left
              obtain ⟨i, hi⟩ := List.exists_mem_of_ne_nil loops hne
              rw [← hloops] at hi
              have hflag := loopIdx_mem hi
              rw [List.getElem?_map] at hflag
              obtain ⟨p, hp, hp2⟩ := Option.map_eq_some'.mp hflag
              obtain ⟨p1, p2⟩ := p
              simp only at hp2
              subst hp2
              obtain ⟨chunk, hchunk, hps⟩ := mapMO_getElem? hparsed i _ hp
              obtain ⟨s, hs, hget⟩ := mapMO_getElem? hstates i _ hchunk
              have hmarker : "-- Loop starts here".data <:+: chunk :=
                infix_of_parse_state_true hps
              have hchunk_s : chunk <:+: s :=
                infix_of_mem_splitOn (List.getElem?_mem hget)
              have hs_body : s <:+: body :=
                infix_of_mem_splitOn
                  (hsplit ▸ List.mem_cons_of_mem descr_type
                    (List.getElem?_mem hs))
              have hsub : "Loop starts here".data <:+: "-- Loop starts here".data :=
                (List.suffix_iff_eq_append.mpr rfl).isInfix
              exact ((hsub.trans hmarker).trans hchunk_s).trans hs_body

/-- C5: whenever `Trace.parse` succeeds, every loop-start index is a valid
position into the parsed state sequence, and if the input text contains no
"Loop starts here" marker at all, the loop-index set is empty. -/
theorem trace_parse_loop_indexes (text : List Char) (tr : Outcome.Trace)
    (h : Outcome.Trace.parse text = some tr) :
    (∀ i ∈ tr.loop_indexes, i < tr.states.length) ∧
    (¬ ("Loop starts here".data <:+: text) → tr.loop_indexes = []) := by
  unfold Outcome.Trace.parse at h
  obtain ⟨body, hbody, hpb⟩ : ∃ body, body <:+: text ∧ parseBody body = some tr :=
    ⟨_, infix_of_pySlice text _ _, h⟩
  have hcore := parseBody_loop_indexes body tr hpb
  refine ⟨hcore.1, fun hn => ?_⟩
  rcases hcore.2 with hinf | hempty
  · exact absurd (hinf.trans hbody) hn
  · exact hempty

/-- Witness for C5 at a concrete marker-free, successfully parsed trace. -/
theorem trace_parse_loop_indexes_witness :
    Outcome.Trace.parse "Trace Description: D\nType: LASSO\n-> s <-\nx = 1\n".data =
      some ⟨"D".data, "LASSO".data, [[("x".data, "1".data)]], []⟩ ∧
    ∀ i ∈ (Outcome.Trace.mk "D".data "LASSO".data [[("x".data, "1".data)]] []).loop_indexes,
      i < (Outcome.Trace.mk "D".data "LASSO".data [[("x".data, "1".data)]] []).states.length :=
  ⟨rfl,
   (trace_parse_loop_indexes "Trace Description: D\nType: LASSO\n-> s <-\nx = 1\n".data
      ⟨"D".data, "LASSO".data, [[("x".data, "1".data)]], []⟩ rfl).1⟩

end Claims
